import Mathlib

/-!
Verification of the persistence core of `persistent-cookiejar`
(`serialize.go` and the `internal` file-lock package), as a shallow
embedding in Lean 4.

Bytes are modelled as `Nat` (with `% 256` wherever the Go code works on
`uint8` and an operation could leave the byte range), byte slices as
`List Nat`, Go strings as `List Char`, and fallible functions as
`Except`/`Option`.  Randomness (the GCM nonce read from `rand.Reader`)
and I/O outcomes (lock acquisition, open, truncate) are threaded as
explicit parameters.  Go standard-library primitives that the source
calls (AES, GCM, standard base64, the JSON decoder) are embedded
concretely below so that every definition is executable.
-/

/-! ## Standard base64 (`encoding/base64`, `StdEncoding`) -/

/-- The 64-character standard base64 alphabet `A-Z a-z 0-9 + /`. -/
def b64Alphabet : List Char :=
  (List.range 26).map (fun i => Char.ofNat (65 + i)) ++
  (List.range 26).map (fun i => Char.ofNat (97 + i)) ++
  (List.range 10).map (fun i => Char.ofNat (48 + i)) ++ ['+', '/']

/-- Character for a 6-bit group. -/
def b64Char (s : Nat) : Char := b64Alphabet.getD s 'A'

/-- The four characters encoding one full 3-byte group. -/
def b64EncGroup (a b c : Nat) : List Char :=
  let n := a * 65536 + b * 256 + c
  [b64Char (n / 262144), b64Char (n / 4096 % 64), b64Char (n / 64 % 64), b64Char (n % 64)]

/-- Standard (padded) base64 encoding of a byte sequence, processed in
3-byte groups exactly as `encoding/base64` does. -/
def b64Encode : List Nat → List Char
  | a :: b :: c :: rest => b64EncGroup a b c ++ b64Encode rest
  | [a, b] =>
    let n := a * 65536 + b * 256
    [b64Char (n / 262144), b64Char (n / 4096 % 64), b64Char (n / 64 % 64), '=']
  | [a] =>
    let n := a * 65536
    [b64Char (n / 262144), b64Char (n / 4096 % 64), '=', '=']
  | [] => []

/-- Reverse lookup in the alphabet (the decode map): `some` sextet for an
alphabet character, `none` otherwise. -/
def b64Index (c : Char) : Option Nat :=
  let i := b64Alphabet.indexOf c
  if i < 64 then some i else none

/-- Standard base64 decoding: 4-character groups, `=` padding allowed only
in the final group; any other shape is a corrupt-input error, as in
`base64.StdEncoding.Decode`. -/
def b64Decode : List Char → Except String (List Nat)
  | [] => .ok []
  | c1 :: c2 :: c3 :: c4 :: rest =>
    match b64Index c1, b64Index c2 with
    | some s1, some s2 =>
      if c3 = '=' then
        if c4 = '=' ∧ rest = [] then .ok [s1 * 4 + s2 / 16]
        else .error "illegal base64 data"
      else
        match b64Index c3 with
        | some s3 =>
          if c4 = '=' then
            if rest = [] then
              let n := s1 * 262144 + s2 * 4096 + s3 * 64
              .ok [n / 65536, n / 256 % 256]
            else .error "illegal base64 data"
          else
            match b64Index c4 with
            | some s4 =>
              match b64Decode rest with
              | .ok bs =>
                let n := s1 * 262144 + s2 * 4096 + s3 * 64 + s4
                .ok (n / 65536 :: n / 256 % 256 :: n % 256 :: bs)
              | .error e => .error e
            | none => .error "illegal base64 data"
        | none => .error "illegal base64 data"
    | _, _ => .error "illegal base64 data"
  | _ => .error "illegal base64 data"

theorem b64Index_b64Char : ∀ s : Fin 64, b64Index (b64Char s.val) = some s.val := by
  decide

theorem b64Char_ne_pad : ∀ s : Fin 64, b64Char s.val ≠ '=' := by
  decide

/-- Round-trip of one full 3-byte group through encode and decode. -/
theorem b64_group_roundtrip (a b c : Nat) (ha : a < 256) (hb : b < 256) (hc : c < 256)
    (rest : List Char) :
    b64Decode (b64EncGroup a b c ++ rest) =
      match b64Decode rest with
      | .ok bs => .ok (a :: b :: c :: bs)
      | .error e => .error e := by
  have h1 := b64Index_b64Char ⟨(a * 65536 + b * 256 + c) / 262144, by omega⟩
  have h2 := b64Index_b64Char ⟨(a * 65536 + b * 256 + c) / 4096 % 64, by omega⟩
  have h3 := b64Index_b64Char ⟨(a * 65536 + b * 256 + c) / 64 % 64, by omega⟩
  have h4 := b64Index_b64Char ⟨(a * 65536 + b * 256 + c) % 64, by omega⟩
  have hne := b64Char_ne_pad ⟨(a * 65536 + b * 256 + c) / 64 % 64, by omega⟩
  have hne4 := b64Char_ne_pad ⟨(a * 65536 + b * 256 + c) % 64, by omega⟩
  simp only [b64EncGroup, List.cons_append, List.nil_append, b64Decode, h1, h2, h3, h4]
  rw [if_neg hne, if_neg hne4]
  cases hres : b64Decode rest with
  | ok bs =>
    simp [hres]
    omega
  | error e => simp [hres]

theorem b64_roundtrip (bs : List Nat) (hb : ∀ b ∈ bs, b < 256) :
    b64Decode (b64Encode bs) = .ok bs := by
  induction bs using b64Encode.induct with
  | case1 a b c rest ih =>
    have ha : a < 256 := hb a (by simp)
    have hbb : b < 256 := hb b (by simp)
    have hc : c < 256 := hb c (by simp)
    rw [b64Encode, b64_group_roundtrip a b c ha hbb hc,
        ih (fun x hx => hb x (by simp [hx]))]
  | case2 a b =>
    have ha : a < 256 := hb a (by simp)
    have hbb : b < 256 := hb b (by simp)
    have h1 := b64Index_b64Char ⟨(a * 65536 + b * 256) / 262144, by omega⟩
    have h2 := b64Index_b64Char ⟨(a * 65536 + b * 256) / 4096 % 64, by omega⟩
    have h3 := b64Index_b64Char ⟨(a * 65536 + b * 256) / 64 % 64, by omega⟩
    have hne := b64Char_ne_pad ⟨(a * 65536 + b * 256) / 64 % 64, by omega⟩
    simp only [b64Encode, b64Decode, h1, h2, h3]
    rw [if_neg hne]
    simp only [reduceIte, Except.ok.injEq, List.cons.injEq, and_true]
    constructor <;> omega
  | case3 a =>
    have ha : a < 256 := hb a (by simp)
    have h1 := b64Index_b64Char ⟨(a * 65536) / 262144, by omega⟩
    have h2 := b64Index_b64Char ⟨(a * 65536) / 4096 % 64, by omega⟩
    simp only [b64Encode, b64Decode, h1, h2]
    simp only [reduceIte, and_self, Except.ok.injEq, List.cons.injEq, and_true]
    omega
  | case4 => rfl

/-! ## Streaming base64 encoder (`base64.NewEncoder`)

The Go code writes the nonce and the ciphertext through one streaming
encoder; the encoder buffers a partial (<3 byte) group between writes and
flushes it with padding on `Close`. -/

/-- State of a streaming encoder: characters emitted so far and the
buffered partial group. -/
structure EncState where
  out : List Char
  pend : List Nat

/-- Consume as many full 3-byte groups as possible, returning the encoded
characters and the remaining (<3 byte) partial group. -/
def b64Consume : List Nat → List Char × List Nat
  | a :: b :: c :: rest =>
    let p := b64Consume rest
    (b64EncGroup a b c ++ p.1, p.2)
  | [a, b] => ([], [a, b])
  | [a] => ([], [a])
  | [] => ([], [])

/-- `Write` on the streaming encoder. -/
def encWrite (st : EncState) (input : List Nat) : EncState :=
  let p := b64Consume (st.pend ++ input)
  ⟨st.out ++ p.1, p.2⟩

/-- `Close` on the streaming encoder: flush the partial group (with
padding) and return everything written. -/
def encClose (st : EncState) : List Char :=
  st.out ++ b64Encode st.pend

/-- Splitting the one-shot encoding at an arbitrary point agrees with
greedy group consumption. -/
theorem b64Encode_split (l m : List Nat) :
    b64Encode (l ++ m) = (b64Consume l).1 ++ b64Encode ((b64Consume l).2 ++ m) := by
  induction l using b64Consume.induct with
  | case1 a b c rest ih =>
    simp only [b64Consume, List.cons_append, b64Encode, List.append_eq, ih, List.append_assoc]
  | case2 a b => rfl
  | case3 a => rfl
  | case4 => rfl

/-- Closing after a write encodes everything buffered plus the new input. -/
theorem encClose_encWrite (st : EncState) (input : List Nat) :
    encClose (encWrite st input) = st.out ++ b64Encode (st.pend ++ input) := by
  have h := b64Encode_split (st.pend ++ input) []
  simp only [List.append_nil] at h
  simp [encClose, encWrite, h]

/-! ## AES block encryption (`crypto/aes`)

The S-box is the standard FIPS-197 table, packed little-endian into a
single natural number (byte `b` sits at bit offset `8*b`). -/

/-- The 256 S-box bytes packed into one number. -/
def sboxPacked : Nat := 2869618975290639062594974519597816386035077209210385677284518162336985023502962151465775969507961862820568736543004676439868535775640188584098917533413284844376797297285941524888791401501466624530423689326528054213168201056672989590893583853414110162539122864583953358348775951166211353578440977400428507475679327181038682772945817200201960445064847785221508011893952350688324234443749897213621340677040612747745615276448919507935121141307752692835344166708617454322778699219895865633266409040561742768581056182730443599545881830075941537620590442514083341749674612746994879540562701631131184186066652929592955206755

/-- S-box lookup. -/
def sboxB (b : Nat) : Nat := sboxPacked / 256 ^ (b % 256) % 256

/-- Round constants for key expansion. -/
def rconList : List Nat := [1, 2, 4, 8, 16, 32, 64, 128, 27, 54]

/-- Apply the S-box to each byte of a word. -/
def subWord (w : List Nat) : List Nat := w.map sboxB

/-- Rotate a 4-byte word left by one byte. -/
def rotWord (w : List Nat) : List Nat := w.drop 1 ++ w.take 1

/-- Byte-wise XOR of two words (bytes are `uint8`, hence the `% 256`). -/
def xorWord (a b : List Nat) : List Nat := List.zipWith (fun x y => (x ^^^ y) % 256) a b

/-- FIPS-197 key expansion: extend the initial `nk` key words by `count`
further words. -/
def expandWords (nk : Nat) (ws : List (List Nat)) : Nat → List (List Nat)
  | 0 => ws
  | c + 1 =>
    let i := ws.length
    let prev := ws.getD (i - 1) [0, 0, 0, 0]
    let temp :=
      if i % nk = 0 then
        xorWord (subWord (rotWord prev)) [rconList.getD (i / nk - 1) 0, 0, 0, 0]
      else if 6 < nk ∧ i % nk = 4 then subWord prev
      else prev
    expandWords nk (ws ++ [xorWord (ws.getD (i - nk) [0, 0, 0, 0]) temp]) c

/-- Full key schedule as a flat list of bytes (`4*(nr+1)` words). -/
def aesKeySchedule (key : List Nat) : List Nat :=
  let nk := key.length / 4
  let nr := nk + 6
  let init := (List.range nk).map (fun i => ((key.drop (4 * i)).take 4).map (· % 256))
  (expandWords nk init (4 * (nr + 1) - nk)).flatten

/-- SubBytes on the 16-byte state (state index `i` holds row `i % 4`,
column `i / 4`, i.e. bytes are kept in input order). -/
def subBytesOp (st : List Nat) : List Nat := st.map sboxB

/-- ShiftRows: row `r` rotates left by `r` columns. -/
def shiftRowsOp (st : List Nat) : List Nat :=
  (List.range 16).map (fun i => st.getD (4 * ((i / 4 + i % 4) % 4) + i % 4) 0)

/-- Multiplication by x in GF(2^8) with the AES polynomial. -/
def xtime (x : Nat) : Nat := if x < 128 then x * 2 else ((x * 2) ^^^ 27) % 256

/-- MixColumns on one column. -/
def mixCol (a0 a1 a2 a3 : Nat) : List Nat :=
  [(xtime a0 ^^^ xtime a1 ^^^ a1 ^^^ a2 ^^^ a3) % 256,
   (a0 ^^^ xtime a1 ^^^ xtime a2 ^^^ a2 ^^^ a3) % 256,
   (a0 ^^^ a1 ^^^ xtime a2 ^^^ xtime a3 ^^^ a3) % 256,
   (xtime a0 ^^^ a0 ^^^ a1 ^^^ a2 ^^^ xtime a3) % 256]

/-- MixColumns on the state. -/
def mixColumnsOp (st : List Nat) : List Nat :=
  ((List.range 4).map (fun c =>
    mixCol (st.getD (4 * c) 0) (st.getD (4 * c + 1) 0)
      (st.getD (4 * c + 2) 0) (st.getD (4 * c + 3) 0))).flatten

/-- Round key `r` from the flat key schedule. -/
def roundKey (ks : List Nat) (r : Nat) : List Nat := (ks.drop (16 * r)).take 16

/-- AddRoundKey. -/
def addRoundKey (st rk : List Nat) : List Nat :=
  (List.range 16).map (fun i => (st.getD i 0 ^^^ rk.getD i 0) % 256)

/-- AES block encryption (10/12/14 rounds for 16/24/32-byte keys). -/
def aesEncBlock (key block : List Nat) : List Nat :=
  let nr := key.length / 4 + 6
  let ks := aesKeySchedule key
  let st0 := addRoundKey (block.map (· % 256)) (roundKey ks 0)
  let stM := (List.range (nr - 1)).foldl
    (fun st r => addRoundKey (mixColumnsOp (shiftRowsOp (subBytesOp st))) (roundKey ks (r + 1))) st0
  addRoundKey (shiftRowsOp (subBytesOp stM)) (roundKey ks nr)

theorem addRoundKey_length (st rk : List Nat) : (addRoundKey st rk).length = 16 := by
  simp [addRoundKey]

theorem addRoundKey_lt (st rk : List Nat) : ∀ x ∈ addRoundKey st rk, x < 256 := by
  intro x hx
  simp only [addRoundKey, List.mem_map] at hx
  obtain ⟨i, -, rfl⟩ := hx
  exact Nat.mod_lt _ (by norm_num)

theorem aesEncBlock_length (key block : List Nat) : (aesEncBlock key block).length = 16 :=
  addRoundKey_length _ _

theorem aesEncBlock_lt (key block : List Nat) : ∀ x ∈ aesEncBlock key block, x < 256 :=
  addRoundKey_lt _ _

/-- `aes.NewCipher`: any key length other than 16, 24 or 32 bytes is a
`KeySizeError`. -/
def aesNewCipher (key : List Nat) : Except String Unit :=
  if key.length = 16 ∨ key.length = 24 ∨ key.length = 32 then .ok ()
  else .error "crypto/aes: invalid key size"

/-! ## AES-GCM (`crypto/cipher.NewGCM`, 12-byte nonce, 16-byte tag) -/

/-- Big-endian bytes-to-number. -/
def bytesToNatBE (l : List Nat) : Nat := l.foldl (fun acc b => acc * 256 + b) 0

/-- Big-endian 32-bit counter bytes. -/
def be32 (n : Nat) : List Nat := (List.range 4).map (fun i => n / 256 ^ (3 - i) % 256)

/-- Big-endian 64-bit length bytes. -/
def be64 (n : Nat) : List Nat := (List.range 8).map (fun i => n / 256 ^ (7 - i) % 256)

/-- Big-endian 128-bit block bytes. -/
def beBytes16 (n : Nat) : List Nat := (List.range 16).map (fun i => n / 256 ^ (15 - i) % 256)

/-- The GHASH reduction constant (bit-reflected polynomial). -/
def gf128R : Nat := 0xe1000000000000000000000000000000

/-- GHASH field multiplication over GF(2^128): iterate over the bits of
`x` from the most significant down, conditionally accumulating shifted
copies of `y` with the reflected reduction. -/
def gf128Mul (x y : Nat) : Nat :=
  ((List.range 128).foldl
    (fun zv i =>
      let z := if x / 2 ^ (127 - i) % 2 = 1 then zv.1 ^^^ zv.2 else zv.1
      let v := if zv.2 % 2 = 1 then zv.2 / 2 ^^^ gf128R else zv.2 / 2
      (z, v))
    ((0 : Nat), y)).1

/-- Zero-pad a byte string up to a multiple of the 16-byte block size. -/
def pad16 (l : List Nat) : List Nat := l ++ List.replicate ((16 - l.length % 16) % 16) 0

/-- Fold GHASH over consecutive 16-byte blocks. -/
def ghashBlocks (h : Nat) (s : Nat) (l : List Nat) : Nat :=
  match l with
  | [] => s
  | b :: rest =>
    ghashBlocks h (gf128Mul (s ^^^ bytesToNatBE ((b :: rest).take 16)) h) (rest.drop 15)
termination_by l.length
decreasing_by simp; omega

/-- GHASH of the padded additional data, the padded ciphertext and the
64-bit bit lengths, as in the GCM specification. -/
def ghashFull (h : Nat) (aad ct : List Nat) : Nat :=
  ghashBlocks h 0 (pad16 aad ++ pad16 ct ++ be64 (aad.length * 8) ++ be64 (ct.length * 8))

/-- Counter block `nonce || be32 c` (the 12-byte-nonce layout, where
`J0 = nonce || 00000001`); the counter wraps at 32 bits. -/
def ctrBlock (nonce : List Nat) (c : Nat) : List Nat := nonce ++ be32 (c % 4294967296)

/-- The CTR keystream byte at offset `i` (encryption starts from counter
value 2, i.e. `inc32(J0)`). -/
def gcmKs (key nonce : List Nat) (i : Nat) : Nat :=
  (aesEncBlock key (ctrBlock nonce (2 + i / 16))).getD (i % 16) 0

/-- XOR a byte list against a keystream starting at offset `i` (bytes are
`uint8`, and XOR of two bytes stays a byte, so no truncation is needed). -/
def xorStream (ks : Nat → Nat) : Nat → List Nat → List Nat
  | _, [] => []
  | i, b :: rest => (b ^^^ ks i) :: xorStream ks (i + 1) rest

/-- CTR encryption/decryption of the payload. -/
def ctrCrypt (key nonce data : List Nat) : List Nat := xorStream (gcmKs key nonce) 0 data

/-- The 16-byte authentication tag: GHASH masked with `AES_K(J0)`. -/
def gcmTag (key nonce ct aad : List Nat) : List Nat :=
  let h := bytesToNatBE (aesEncBlock key (List.replicate 16 0))
  let s := ghashFull h aad ct
  let mask := aesEncBlock key (ctrBlock nonce 1)
  (List.range 16).map (fun i => (beBytes16 s).getD i 0 ^^^ mask.getD i 0)

/-- `Seal`: ciphertext followed by the appended authentication tag. -/
def gcmSeal (key nonce plaintext aad : List Nat) : List Nat :=
  let ct := ctrCrypt key nonce plaintext
  ct ++ gcmTag key nonce ct aad

/-- `Open`: reject inputs shorter than the tag, recompute and compare the
tag, and only then decrypt; mismatch is an authentication error. -/
def gcmOpen (key nonce ciphertext aad : List Nat) : Option (List Nat) :=
  if ciphertext.length < 16 then none
  else
    let ct := ciphertext.take (ciphertext.length - 16)
    let tag := ciphertext.drop (ciphertext.length - 16)
    if gcmTag key nonce ct aad = tag then some (ctrCrypt key nonce ct) else none

theorem xorStream_length (ks : Nat → Nat) (i : Nat) (l : List Nat) :
    (xorStream ks i l).length = l.length := by
  induction l generalizing i with
  | nil => rfl
  | cons b rest ih => simp [xorStream, ih]

theorem xorStream_invol (ks : Nat → Nat) (i : Nat) (l : List Nat) :
    xorStream ks i (xorStream ks i l) = l := by
  induction l generalizing i with
  | nil => rfl
  | cons b rest ih =>
    simp only [xorStream, ih, List.cons.injEq, and_true]
    rw [Nat.xor_assoc, Nat.xor_self, Nat.xor_zero]

theorem getD_lt (l : List Nat) (i d : Nat) (hl : ∀ x ∈ l, x < 256) (hd : d < 256) :
    l.getD i d < 256 := by
  induction l generalizing i with
  | nil => simpa [List.getD]
  | cons b rest ih =>
    cases i with
    | zero => exact hl b (by simp)
    | succ j => exact ih j (fun x hx => hl x (by simp [hx]))

theorem gcmKs_lt (key nonce : List Nat) (i : Nat) : gcmKs key nonce i < 256 :=
  getD_lt _ _ _ (aesEncBlock_lt _ _) (by norm_num)

theorem xor_byte_lt {a b : Nat} (ha : a < 256) (hb : b < 256) : a ^^^ b < 256 := by
  have h : (256 : Nat) = 2 ^ 8 := by norm_num
  rw [h] at ha hb ⊢
  exact Nat.xor_lt_two_pow ha hb

theorem xorStream_lt (ks : Nat → Nat) (hks : ∀ j, ks j < 256) (i : Nat) (l : List Nat)
    (hl : ∀ x ∈ l, x < 256) : ∀ x ∈ xorStream ks i l, x < 256 := by
  induction l generalizing i with
  | nil => simp [xorStream]
  | cons b rest ih =>
    intro x hx
    simp only [xorStream, List.mem_cons] at hx
    rcases hx with rfl | hx
    · exact xor_byte_lt (hl b (by simp)) (hks i)
    · exact ih (i + 1) (fun y hy => hl y (by simp [hy])) x hx

theorem gcmTag_length (key nonce ct aad : List Nat) : (gcmTag key nonce ct aad).length = 16 := by
  simp [gcmTag]

theorem gcmTag_lt (key nonce ct aad : List Nat) : ∀ x ∈ gcmTag key nonce ct aad, x < 256 := by
  intro x hx
  simp only [gcmTag, List.mem_map, List.mem_range] at hx
  obtain ⟨i, -, rfl⟩ := hx
  refine xor_byte_lt (getD_lt _ _ _ ?_ (by norm_num)) (getD_lt _ _ _ (aesEncBlock_lt _ _) (by norm_num))
  intro y hy
  simp only [beBytes16, List.mem_map, List.mem_range] at hy
  obtain ⟨j, -, rfl⟩ := hy
  exact Nat.mod_lt _ (by norm_num)

theorem gcmSeal_length (key nonce p aad : List Nat) :
    (gcmSeal key nonce p aad).length = p.length + 16 := by
  simp [gcmSeal, ctrCrypt, xorStream_length, gcmTag_length]

theorem gcmSeal_lt (key nonce p aad : List Nat) (hp : ∀ x ∈ p, x < 256) :
    ∀ x ∈ gcmSeal key nonce p aad, x < 256 := by
  intro x hx
  simp only [gcmSeal, List.mem_append] at hx
  rcases hx with hx | hx
  · exact xorStream_lt _ (gcmKs_lt key nonce) 0 p hp x hx
  · exact gcmTag_lt _ _ _ _ x hx

/-- GCM round-trip: opening a sealed message authenticates (the recomputed
tag is bit-for-bit the sealed tag) and CTR decryption undoes CTR
encryption. -/
theorem gcmOpen_gcmSeal (key nonce p aad : List Nat) :
    gcmOpen key nonce (gcmSeal key nonce p aad) aad = some p := by
  have hlen : (gcmSeal key nonce p aad).length = p.length + 16 := gcmSeal_length _ _ _ _
  have hct : (ctrCrypt key nonce p).length = p.length := xorStream_length _ _ _
  rw [gcmOpen, if_neg (by omega)]
  have hidx : p.length + 16 - 16 = p.length := by omega
  have htake : (gcmSeal key nonce p aad).take ((gcmSeal key nonce p aad).length - 16) =
      ctrCrypt key nonce p := by
    rw [hlen, hidx, gcmSeal]
    exact List.take_left' hct
  have hdrop : (gcmSeal key nonce p aad).drop ((gcmSeal key nonce p aad).length - 16) =
      gcmTag key nonce (ctrCrypt key nonce p) aad := by
    rw [hlen, hidx, gcmSeal]
    exact List.drop_left' hct
  rw [htake, hdrop, if_pos rfl]
  simp only [ctrCrypt, xorStream_invol]

/-! ## The value codec (`encrypt` / `decrypt` in serialize.go) -/

/-- Errors `decrypt` can return. -/
inductive DecryptErr where
  | invalidValue
  | base64Err (msg : String)
  | invalidKey
  | openFail
deriving DecidableEq

/-- Outcome of `decrypt`: a value, an error value, or a runtime panic
(Go slice bound out of range). -/
inductive DecryptResult where
  | ok (pt : List Nat)
  | errored (e : DecryptErr)
  | sliceOutOfRange
deriving DecidableEq

/-- `encrypt`: AES-GCM seal under a fresh nonce (threaded here as the
`nonce` argument, read from `rand.Reader` in the source), then the text
`"v01"` followed by a streaming base64 encoding of nonce and ciphertext.
`cipher.NewGCM` cannot fail on an AES block, so its error branch is not
reachable and is not modelled. -/
def encrypt (plaintext key nonce : List Nat) : Except String (List Char) :=
  match aesNewCipher key with
  | .error _ => .error "invalid encrypt key"
  | .ok _ =>
    let encrypted := gcmSeal key nonce plaintext []
    let st1 := encWrite ⟨[], []⟩ nonce
    let st2 := encWrite st1 encrypted
    .ok (['v', '0', '1'] ++ encClose st2)

/-- `decrypt`: require the `"v01"` tag, base64-decode the rest, build the
cipher, split off the 12-byte nonce (a Go slice panic when fewer than 12
bytes were decoded) and open. -/
def decrypt (encryptedText : List Char) (key : List Nat) : DecryptResult :=
  if encryptedText.take 3 ≠ ['v', '0', '1'] then .errored .invalidValue
  else
    match b64Decode (encryptedText.drop 3) with
    | .error e => .errored (.base64Err e)
    | .ok encryptedData =>
      match aesNewCipher key with
      | .error _ => .errored .invalidKey
      | .ok _ =>
        if encryptedData.length < 12 then .sliceOutOfRange
        else
          match gcmOpen key (encryptedData.take 12) (encryptedData.drop 12) [] with
          | some pt => .ok pt
          | none => .errored .openFail

/-- Two streaming writes then close encode the concatenation in one shot. -/
theorem encClose_two_writes (x y : List Nat) :
    encClose (encWrite (encWrite ⟨[], []⟩ x) y) = b64Encode (x ++ y) := by
  rw [encClose_encWrite]
  simp only [encWrite, List.nil_append]
  rw [← b64Encode_split]

/-- On a valid key size, `encrypt` succeeds and produces the tagged base64
text of `nonce || sealed`. -/
theorem encrypt_ok (p key nonce : List Nat)
    (hk : key.length = 16 ∨ key.length = 24 ∨ key.length = 32) :
    encrypt p key nonce = .ok (['v', '0', '1'] ++ b64Encode (nonce ++ gcmSeal key nonce p [])) := by
  rw [encrypt, aesNewCipher, if_pos hk]
  simp only [encClose_two_writes]

/-- C1: for every plaintext byte sequence P and every key K whose length
is 16, 24 or 32 bytes, `decrypt(encrypt(P, K), K)` succeeds and returns
P (for any 12-byte nonce drawn by the encryption). -/
theorem C1_encrypt_decrypt_roundtrip (p key nonce : List Nat)
    (hk : key.length = 16 ∨ key.length = 24 ∨ key.length = 32)
    (hp : ∀ b ∈ p, b < 256)
    (hn : nonce.length = 12) (hnb : ∀ b ∈ nonce, b < 256) :
    ∃ text, encrypt p key nonce = .ok text ∧ decrypt text key = .ok p := by
  have hseal := gcmSeal_lt key nonce p [] hp
  have hbytes : ∀ b ∈ nonce ++ gcmSeal key nonce p [], b < 256 := by
    intro b hb
    rcases List.mem_append.1 hb with h | h
    exacts [hnb b h, hseal b h]
  have hlen : (nonce ++ gcmSeal key nonce p []).length = p.length + 28 := by
    rw [List.length_append, hn, gcmSeal_length]
    omega
  refine ⟨_, encrypt_ok p key nonce hk, ?_⟩
  rw [decrypt]
  have ht3 : (['v', '0', '1'] ++ b64Encode (nonce ++ gcmSeal key nonce p [])).take 3 =
      ['v', '0', '1'] := List.take_left' rfl
  have hd3 : (['v', '0', '1'] ++ b64Encode (nonce ++ gcmSeal key nonce p [])).drop 3 =
      b64Encode (nonce ++ gcmSeal key nonce p []) := List.drop_left' rfl
  rw [if_neg (not_not_intro ht3), hd3, b64_roundtrip _ hbytes]
  simp only [aesNewCipher, if_pos hk]
  rw [if_neg (by omega), List.take_left' hn, List.drop_left' hn, gcmOpen_gcmSeal]

/-- Witness for C1 at a concrete plaintext, key and nonce. -/
theorem C1_witness :
    ((List.range 16).length = 16 ∨ (List.range 16).length = 24 ∨ (List.range 16).length = 32) ∧
    (∀ b ∈ [104, 105], b < 256) ∧ (List.range 12).length = 12 ∧
    (∀ b ∈ List.range 12, b < 256) ∧
    ∃ text, encrypt [104, 105] (List.range 16) (List.range 12) = .ok text ∧
      decrypt text (List.range 16) = .ok [104, 105] :=
  ⟨by decide, by decide, by decide, by decide,
    C1_encrypt_decrypt_roundtrip [104, 105] (List.range 16) (List.range 12)
      (by decide) (by decide) (by decide) (by decide)⟩

/-- C2: for every plaintext and every key of valid AES size, the text
returned by `encrypt` is exactly the 3-character tag "v01" followed by
the standard base64 encoding of the fresh nonce concatenated with the
GCM ciphertext-plus-tag, sealed with no additional authenticated data. -/
theorem C2_encrypt_format (p key nonce : List Nat)
    (hk : key.length = 16 ∨ key.length = 24 ∨ key.length = 32) :
    encrypt p key nonce =
      .ok (['v', '0', '1'] ++ b64Encode (nonce ++ gcmSeal key nonce p [])) :=
  encrypt_ok p key nonce hk

/-- Witness for C2 at a concrete plaintext, key and nonce. -/
theorem C2_witness :
    ((List.range 24).length = 16 ∨ (List.range 24).length = 24 ∨ (List.range 24).length = 32) ∧
    encrypt [1, 2, 3] (List.range 24) (List.range 12) =
      .ok (['v', '0', '1'] ++
        b64Encode (List.range 12 ++ gcmSeal (List.range 24) (List.range 12) [1, 2, 3] [])) :=
  ⟨by decide, C2_encrypt_format [1, 2, 3] (List.range 24) (List.range 12) (by decide)⟩

/-- C8: for every key and every input text that does not start with the
3-character tag "v01", `decrypt` fails with the invalid-value error (it
returns before any base64 or cryptographic processing). -/
theorem C8_decrypt_rejects_untagged (text : List Char) (key : List Nat)
    (h : text.take 3 ≠ ['v', '0', '1']) :
    decrypt text key = .errored .invalidValue := by
  rw [decrypt, if_pos h]

/-- Witness for C8 on a concrete untagged text. -/
theorem C8_witness :
    ('a' :: 'b' :: 'c' :: []).take 3 ≠ ['v', '0', '1'] ∧
    decrypt ['a', 'b', 'c'] (List.range 16) = .errored .invalidValue :=
  ⟨by decide, C8_decrypt_rejects_untagged ['a', 'b', 'c'] (List.range 16) (by decide)⟩

/-- C9: for every key of valid AES size and every input "v01" followed by
valid base64 whose decoding is shorter than the 12-byte GCM nonce,
`decrypt` does not return an error value but panics with a slice bound
out of range while splitting off the nonce. -/
theorem C9_short_decode_panics (key : List Nat) (chars : List Char) (data : List Nat)
    (hk : key.length = 16 ∨ key.length = 24 ∨ key.length = 32)
    (hdec : b64Decode chars = .ok data) (hlen : data.length < 12) :
    decrypt (['v', '0', '1'] ++ chars) key = .sliceOutOfRange := by
  rw [decrypt]
  have ht3 : (['v', '0', '1'] ++ chars).take 3 = ['v', '0', '1'] := List.take_left' rfl
  have hd3 : (['v', '0', '1'] ++ chars).drop 3 = chars := List.drop_left' rfl
  rw [if_neg (not_not_intro ht3), hd3, hdec]
  simp only [aesNewCipher, if_pos hk]
  rw [if_pos hlen]

/-- Witness for C9: "v01QQ==" decodes one byte, shorter than a nonce. -/
theorem C9_witness :
    ((List.range 16).length = 16 ∨ (List.range 16).length = 24 ∨ (List.range 16).length = 32) ∧
    b64Decode ['Q', 'Q', '=', '='] = .ok [65] ∧ ([65] : List Nat).length < 12 ∧
    decrypt (['v', '0', '1'] ++ ['Q', 'Q', '=', '=']) (List.range 16) = .sliceOutOfRange :=
  ⟨by decide, by rfl, by decide,
    C9_short_decode_panics (List.range 16) ['Q', 'Q', '=', '='] [65]
      (by decide) (by rfl) (by decide)⟩

/-! ## JSON values and a one-value decoder (`encoding/json`)

`mergeFrom` first decodes a single JSON value into a `json.RawMessage`
and then unmarshals it as `[]entry`.  The embedding keeps the two stages
separate: a structural parser for one JSON value, then an entry
unmarshaller.  The parser enforces the scanner's grammar: numeric
literals follow `-?(0|[1-9][0-9]*)(\.[0-9]+)?([eE][+-]?[0-9]+)?` (their
raw character span is kept — no claim depends on numeric values of
arbitrary JSON), string bodies admit only the eight single-character
escapes and `\uXXXX` and no raw control characters (escape sequences
are kept as written, not interpreted; the claims and witnesses use
escape-free strings), and a top-level literal value is complete only
when followed by whitespace or end of input, exactly as the scanner's
end-of-top-level-value state demands. -/

/-- A parsed JSON value. -/
inductive Json where
  | null : Json
  | bool : Bool → Json
  | num : List Char → Json
  | str : List Char → Json
  | arr : List Json → Json
  | obj : List (List Char × Json) → Json

/-- Skip JSON whitespace (space, tab, newline, carriage return). -/
def skipWs : List Char → List Char
  | c :: rest => if c = ' ' ∨ c = '\t' ∨ c = '\n' ∨ c = '\r' then skipWs rest else c :: rest
  | [] => []

/-- A hexadecimal digit. -/
def isHexDigit (c : Char) : Bool :=
  c.isDigit || ('a' ≤ c ∧ c ≤ 'f') || ('A' ≤ c ∧ c ≤ 'F')

/-- Parse a string body after the opening quote, up to the closing quote.
Only the eight single-character escapes and `\uXXXX` are legal, and raw
control characters (below 0x20) are a syntax error, as in the
`encoding/json` scanner. -/
def parseStringBody : List Char → Option (List Char × List Char)
  | [] => none
  | c :: rest =>
    if c = '"' then some ([], rest)
    else if c = '\\' then
      match rest with
      | [] => none
      | e :: rest2 =>
        if e = '"' ∨ e = '\\' ∨ e = '/' ∨ e = 'b' ∨ e = 'f' ∨ e = 'n' ∨ e = 'r' ∨ e = 't' then
          (parseStringBody rest2).map (fun p => (c :: e :: p.1, p.2))
        else if e = 'u' then
          match rest2 with
          | h1 :: h2 :: h3 :: h4 :: rest3 =>
            if isHexDigit h1 ∧ isHexDigit h2 ∧ isHexDigit h3 ∧ isHexDigit h4 then
              (parseStringBody rest3).map (fun p => (c :: e :: h1 :: h2 :: h3 :: h4 :: p.1, p.2))
            else none
          | _ => none
        else none
    else if c.toNat < 32 then none
    else (parseStringBody rest).map (fun p => (c :: p.1, p.2))

/-- Parse the exponent part of a numeric literal, if present: `[eE]`, an
optional sign, then at least one digit. -/
def parseExpPart (acc : List Char) : List Char → Option (List Char × List Char)
  | [] => some (acc, [])
  | e :: rest =>
    if e = 'e' ∨ e = 'E' then
      match (match rest with
             | '+' :: r => (['+'], r)
             | '-' :: r => (['-'], r)
             | r => (([] : List Char), r)) with
      | (sgn, s2) =>
        match s2 with
        | d :: r2 =>
          if d.isDigit then
            some (acc ++ e :: sgn ++ d :: r2.takeWhile Char.isDigit, r2.dropWhile Char.isDigit)
          else none
        | [] => none
    else some (acc, e :: rest)

/-- Parse the fraction part of a numeric literal, if present: `.` then at
least one digit, then a possible exponent. -/
def parseFracPart (acc : List Char) : List Char → Option (List Char × List Char)
  | '.' :: rest =>
    match rest with
    | d :: r2 =>
      if d.isDigit then
        parseExpPart (acc ++ '.' :: d :: r2.takeWhile Char.isDigit) (r2.dropWhile Char.isDigit)
      else none
    | [] => none
  | s => parseExpPart acc s

/-- Parse a numeric literal under the scanner's grammar
`-?(0|[1-9][0-9]*)(\.[0-9]+)?([eE][+-]?[0-9]+)?`: no leading zeros in the
integer part, no bare minus, no dangling fraction dot or exponent. -/
def parseNumber (s : List Char) : Option (List Char × List Char) :=
  match (match s with
         | '-' :: rest => (['-'], rest)
         | r => (([] : List Char), r)) with
  | (sign, s1) =>
    match s1 with
    | [] => none
    | d :: rest =>
      if d = '0' then parseFracPart (sign ++ ['0']) rest
      else if d.isDigit then
        parseFracPart (sign ++ d :: rest.takeWhile Char.isDigit) (rest.dropWhile Char.isDigit)
      else none

mutual

/-- Parse one JSON value. The fuel decreases on each nested parse; the
top-level call supplies more fuel than any possible nesting depth. -/
def parseValue : Nat → List Char → Option (Json × List Char)
  | 0, _ => none
  | f + 1, s =>
    match skipWs s with
    | [] => none
    | c :: rest =>
      if c = '"' then (parseStringBody rest).map (fun p => (Json.str p.1, p.2))
      else if c = '[' then (parseArrayItems f rest).map (fun p => (Json.arr p.1, p.2))
      else if c = Char.ofNat 123 then (parseObjMembers f rest).map (fun p => (Json.obj p.1, p.2))
      else if c = 'n' then
        if rest.take 3 = ['u', 'l', 'l'] then some (Json.null, rest.drop 3) else none
      else if c = 't' then
        if rest.take 3 = ['r', 'u', 'e'] then some (Json.bool true, rest.drop 3) else none
      else if c = 'f' then
        if rest.take 4 = ['a', 'l', 's', 'e'] then some (Json.bool false, rest.drop 4) else none
      else if c = '-' ∨ c.isDigit then
        match parseNumber (c :: rest) with
        | some (lit, r) => some (Json.num lit, r)
        | none => none
      else none

/-- Parse array items up to the closing bracket (after the opening one). -/
def parseArrayItems : Nat → List Char → Option (List Json × List Char)
  | 0, _ => none
  | f + 1, s =>
    match skipWs s with
    | [] => none
    | c :: rest =>
      if c = ']' then some ([], rest)
      else
        match parseValue f (c :: rest) with
        | none => none
        | some (v, r) =>
          match skipWs r with
          | ',' :: r2 =>
            match parseArrayItems f r2 with
            | some (vs, r3) => if vs.isEmpty then none else some (v :: vs, r3)
            | none => none
          | d :: r2 => if d = ']' then some ([v], r2) else none
          | [] => none

/-- Parse object members up to the closing brace (after the opening one). -/
def parseObjMembers : Nat → List Char → Option (List (List Char × Json) × List Char)
  | 0, _ => none
  | f + 1, s =>
    match skipWs s with
    | [] => none
    | c :: rest =>
      if c = Char.ofNat 125 then some ([], rest)
      else if c = '"' then
        match parseStringBody rest with
        | none => none
        | some (k, r) =>
          match skipWs r with
          | ':' :: r2 =>
            match parseValue f r2 with
            | none => none
            | some (v, r3) =>
              match skipWs r3 with
              | ',' :: r4 =>
                match parseObjMembers f r4 with
                | some (ms, r5) => if ms.isEmpty then none else some ((k, v) :: ms, r5)
                | none => none
              | d :: r4 => if d = Char.ofNat 125 then some ([(k, v)] , r4) else none
              | [] => none
          | _ => none
      else none

end

/-- Outcome of `json.NewDecoder(r).Decode(&data)` for one value. -/
inductive JsonDecodeResult where
  | eof
  | fail
  | value (v : Json)

/-- Decode exactly one JSON value from the stream: a whitespace-only
stream is end-of-file and an unparsable stream is a syntax error.  An
object or array is complete at its closing bracket, with any following
bytes left unread; a literal value (null, boolean, number or string) is
complete only when the next byte is whitespace or the stream ends —
anything else trips the scanner's end-of-top-level-value check, exactly
as in `Decoder.readValue`. -/
def decodeOneJson (s : List Char) : JsonDecodeResult :=
  match skipWs s with
  | [] => .eof
  | c :: rest =>
    match parseValue (s.length + 1) (c :: rest) with
    | some (v, r) =>
      match v with
      | .obj _ => .value v
      | .arr _ => .value v
      | _ =>
        match r with
        | [] => .value v
        | d :: _ => if d = ' ' ∨ d = '\t' ∨ d = '\n' ∨ d = '\r' then .value v else .fail
    | none => .fail

/-! ## Entries and the jar

The `entry` struct and the jar's store live in `jar.go`, which is not
part of the sources under verification; both are modelled from the spec
(section 3): an Entry carries Domain/Path/Name identification, plaintext
`Value`, ciphertext `EncryptedValue`, a `Persistent` flag and an absolute
`Expires` timestamp (modelled as an integer timestamp), and the jar maps
canonical hosts to sub-collections of entries. -/

/-- Modelled from the spec: a cookie entry as serialized and consumed by
the persistence core. -/
structure Entry where
  name : List Char
  domain : List Char
  path : List Char
  value : List Char
  encryptedValue : List Char
  persistent : Bool
  expires : Int
deriving DecidableEq

/-- Modelled from the spec: the jar state the persistence core touches —
the target filename, the optional encryption key, and the mapping from
canonical host to its sub-collection of entries. -/
structure Jar where
  filename : List Char
  encryptedKey : List Nat
  entries : List (List Char × List Entry)
deriving DecidableEq

/-- String field extraction during unmarshalling: absent or null leaves
the zero value, a JSON string is taken, any other type is an error. -/
def fieldStr (ms : List (List Char × Json)) (key : List Char) : Option (List Char) :=
  match ms.lookup key with
  | none => some []
  | some .null => some []
  | some (.str s) => some s
  | some _ => none

/-- Boolean field extraction. -/
def fieldBool (ms : List (List Char × Json)) (key : List Char) : Option Bool :=
  match ms.lookup key with
  | none => some false
  | some .null => some false
  | some (.bool b) => some b
  | some _ => none

/-- Digits of a decimal numeral. -/
def digitsToNat? (ds : List Char) : Option Nat :=
  if ds ≠ [] ∧ ds.all Char.isDigit then
    some (ds.foldl (fun a c => a * 10 + (c.toNat - 48)) 0)
  else none

/-- Integer value of a raw numeric literal (timestamps are integral). -/
def charsToInt? : List Char → Option Int
  | '-' :: rest => (digitsToNat? rest).map (fun n => -(n : Int))
  | s => (digitsToNat? s).map (fun n => (n : Int))

/-- Timestamp field extraction. -/
def fieldInt (ms : List (List Char × Json)) (key : List Char) : Option Int :=
  match ms.lookup key with
  | none => some 0
  | some .null => some 0
  | some (.num raw) => charsToInt? raw
  | some _ => none

/-- Unmarshal one JSON value as an Entry: it must be an object, and each
known field must have the right type; unknown fields are ignored. -/
def entryOfJson : Json → Option Entry
  | .obj ms => do
    let name ← fieldStr ms "Name".data
    let domain ← fieldStr ms "Domain".data
    let path ← fieldStr ms "Path".data
    let value ← fieldStr ms "Value".data
    let ev ← fieldStr ms "EncryptedValue".data
    let persistent ← fieldBool ms "Persistent".data
    let expires ← fieldInt ms "Expires".data
    pure ⟨name, domain, path, value, ev, persistent, expires⟩
  | _ => none

/-- Unmarshal a JSON value as `[]entry`: JSON null yields an empty slice,
an array is unmarshalled element-wise, anything else is a type error. -/
def unmarshalEntries : Json → Option (List Entry)
  | .null => some []
  | .arr vs => vs.mapM entryOfJson
  | _ => none

/-- Minimal JSON string escaping (quotes and backslashes). -/
def escapeJsonStr (s : List Char) : List Char :=
  (s.map (fun c => if c = '"' ∨ c = '\\' then ['\\', c] else [c])).flatten

/-- A quoted JSON string literal. -/
def quoteStr (s : List Char) : List Char := '"' :: escapeJsonStr s ++ ['"']

/-- Decimal literal of an integer. -/
def intChars (i : Int) : List Char :=
  if i < 0 then '-' :: Nat.toDigits 10 i.natAbs else Nat.toDigits 10 i.natAbs

/-- The JSON object written for one entry. -/
def jsonOfEntry (e : Entry) : Json :=
  .obj [("Name".data, .str e.name), ("Domain".data, .str e.domain),
        ("Path".data, .str e.path), ("Value".data, .str e.value),
        ("EncryptedValue".data, .str e.encryptedValue),
        ("Persistent".data, .bool e.persistent),
        ("Expires".data, .num (intChars e.expires))]

mutual

/-- Compact JSON serialization of a value. -/
def jsonEncode : Json → List Char
  | .null => "null".data
  | .bool true => "true".data
  | .bool false => "false".data
  | .num raw => raw
  | .str s => quoteStr s
  | .arr vs => '[' :: jsonEncodeItems vs ++ [']']
  | .obj ms => Char.ofNat 123 :: jsonEncodeMembers ms ++ [Char.ofNat 125]

/-- Comma-separated encodings of array items. -/
def jsonEncodeItems : List Json → List Char
  | [] => []
  | [v] => jsonEncode v
  | v :: vs => jsonEncode v ++ ',' :: jsonEncodeItems vs

/-- Comma-separated encodings of object members. -/
def jsonEncodeMembers : List (List Char × Json) → List Char
  | [] => []
  | [(k, v)] => quoteStr k ++ ':' :: jsonEncode v
  | (k, v) :: ms => quoteStr k ++ ':' :: jsonEncode v ++ ',' :: jsonEncodeMembers ms

end

/-- The file content `json.NewEncoder(w).Encode(entries)` writes: the
JSON array of the entries followed by a newline. -/
def encodeEntries (es : List Entry) : List Char :=
  jsonEncode (Json.arr (es.map jsonOfEntry)) ++ ['\n']

/-! ## Jar serialization (`allPersistentEntries`, `writeTo`, `mergeFrom`) -/

/-- Lexicographic order on strings. -/
def charListLt : List Char → List Char → Bool
  | [], [] => false
  | [], _ :: _ => true
  | _ :: _, [] => false
  | a :: as, b :: bs => if a = b then charListLt as bs else decide (a < b)

/-- Modelled from the spec: the `byCanonicalHost` sort order — primary
canonical host (the entry's normalized domain) ascending, secondary path
length descending. The comparator lives in `jar.go`, outside the sources
under verification. -/
def entryBefore (a b : Entry) : Bool :=
  if a.domain = b.domain then decide (b.path.length ≤ a.path.length)
  else charListLt a.domain b.domain

/-- Insertion step of the sort. -/
def insertEntry (e : Entry) : List Entry → List Entry
  | [] => [e]
  | x :: xs => if entryBefore e x then e :: x :: xs else x :: insertEntry e xs

/-- Insertion sort by `entryBefore`. -/
def sortEntries : List Entry → List Entry
  | [] => []
  | x :: xs => insertEntry x (sortEntries xs)

theorem mem_insertEntry (a e : Entry) (l : List Entry) :
    a ∈ insertEntry e l ↔ a = e ∨ a ∈ l := by
  induction l with
  | nil => simp [insertEntry]
  | cons x xs ih =>
    rw [insertEntry]
    by_cases h : entryBefore e x = true
    · simp [h]
    · simp only [if_neg h, List.mem_cons, ih]
      tauto

theorem mem_sortEntries (a : Entry) (l : List Entry) : a ∈ sortEntries l ↔ a ∈ l := by
  induction l with
  | nil => simp [sortEntries]
  | cons x xs ih => rw [sortEntries]; simp [mem_insertEntry, ih]

/-- UTF-8 bytes of a value string (claims and witnesses use ASCII, where
this agrees with Go's `[]byte` conversion byte for byte). -/
def strBytes (s : List Char) : List Nat := s.map Char.toNat

/-- The selection/encryption loop of `allPersistentEntries`: keep the
persistent entries; when an encryption key is configured, each kept
entry's Value is encrypted into EncryptedValue (consuming one fresh nonce
from the stream) and Value is cleared; an encryption failure aborts. -/
def collectPersistent (key : List Nat) (nonces : Nat → List Nat) : Nat → List Entry → Except String (List Entry)
  | _, [] => .ok []
  | idx, e :: rest =>
    if e.persistent then
      if 0 < key.length then
        match encrypt (strBytes e.value) key (nonces idx) with
        | .error _ => .error "encrypt value error"
        | .ok ev =>
          match collectPersistent key nonces (idx + 1) rest with
          | .ok es => .ok ({ e with encryptedValue := ev, value := [] } :: es)
          | .error er => .error er
      else
        match collectPersistent key nonces idx rest with
        | .ok es => .ok (e :: es)
        | .error er => .error er
    else collectPersistent key nonces idx rest

/-- `allPersistentEntries`: all persistent entries of every sub-collection,
encrypted when a key is configured, sorted by canonical host. -/
def allPersistentEntries (j : Jar) (nonces : Nat → List Nat) : Except String (List Entry) :=
  match collectPersistent j.encryptedKey nonces 0 ((j.entries.map Prod.snd).flatten) with
  | .ok es => .ok (sortEntries es)
  | .error e => .error e

/-- `writeTo`: encode all persistent entries as one JSON array. -/
def writeTo (j : Jar) (nonces : Nat → List Nat) : Except String (List Char) :=
  match allPersistentEntries j nonces with
  | .ok es => .ok (encodeEntries es)
  | .error e => .error e

/-- Modelled from the spec: `deleteExpired` purges from the store every
entry whose Expires is at or before `now` (it lives in `jar.go`, outside
the sources under verification). -/
def deleteExpired (j : Jar) (now : Int) : Jar :=
  { j with entries := j.entries.map (fun he => (he.1, he.2.filter (fun e => decide (now < e.expires)))) }

/-- Replace the entry with the same Domain/Path/Name key, else append. -/
def replaceIn (e : Entry) : List Entry → List Entry
  | [] => [e]
  | x :: xs =>
    if x.name = e.name ∧ x.path = e.path ∧ x.domain = e.domain then e :: xs
    else x :: replaceIn e xs

/-- Insert an entry into the sub-collection of its canonical host. -/
def insertHost : List (List Char × List Entry) → Entry → List (List Char × List Entry)
  | [], e => [(e.domain, [e])]
  | (h, es) :: rest, e =>
    if h = e.domain then (h, replaceIn e es) :: rest else (h, es) :: insertHost rest e

/-- Modelled from the spec: the Entry Store's merge folds decoded entries
into the store (latest wins — an incoming entry replaces the stored entry
with the same identity); merge semantics are owned by `jar.go`, outside
the sources under verification, and no claim depends on their detail. -/
def merge (j : Jar) (es : List Entry) : Jar :=
  es.foldl (fun acc e => { acc with entries := insertHost acc.entries e }) j

/-- Error from `mergeFrom` (a JSON syntax error from the decoder). -/
inductive MergeErr where
  | syntaxErr
deriving DecidableEq

/-- `mergeFrom`: decode one JSON value — end of file merges nothing and
succeeds; a syntax error is a hard error; a value that does not unmarshal
as `[]entry` is discarded with a logged warning and succeeds; otherwise
the decoded entries are merged. -/
def mergeFrom (j : Jar) (s : List Char) : Except MergeErr Jar :=
  match decodeOneJson s with
  | .eof => .ok j
  | .fail => .error .syntaxErr
  | .value v =>
    match unmarshalEntries v with
    | none => .ok j
    | some es => .ok (merge j es)

/-! ## The file lock (`internal.LockFile`)

`flock.TryLockContext` retries a non-blocking lock attempt every 100
microseconds until the 100 millisecond context deadline; real time is
abstracted into the resulting retry budget of `100ms / 100µs = 1000`
attempts, each attempt outcome supplied by the environment. -/

/-- Outcome of one non-blocking flock attempt. -/
inductive Attempt where
  | success
  | held
  | ioError (code : Nat)
deriving DecidableEq

/-- Error from the retry loop. -/
inductive FlockErr where
  | deadlineExceeded
  | other (code : Nat)
deriving DecidableEq

/-- Retry budget: total deadline over poll interval. -/
def lockRetryCount : Nat := 1000

/-- The retry loop of `flock.TryLockContext` from attempt `k` with `r`
attempts left: success acquires, an I/O error aborts, a held lock retries
until the deadline. -/
def tryLockFrom (att : Nat → Attempt) (k : Nat) : Nat → Except FlockErr Unit
  | 0 => .error .deadlineExceeded
  | r + 1 =>
    match att k with
    | .success => .ok ()
    | .ioError c => .error (.other c)
    | .held => tryLockFrom att (k + 1) r

/-- `flock.TryLockContext` under the 100 ms context. -/
def tryLockContext (att : Nat → Attempt) : Except FlockErr Unit :=
  tryLockFrom att 0 lockRetryCount

/-- Error from `LockFile`: the distinct lock timeout, or a pass-through
I/O failure. -/
inductive LockErr where
  | timeout
  | io (code : Nat)
deriving DecidableEq

/-- `internal.LockFile`: run the bounded retry; `context.DeadlineExceeded`
becomes the distinct "try lock timeout" error, other failures pass
through. -/
def LockFile (att : Nat → Attempt) : Except LockErr Unit :=
  match tryLockContext att with
  | .ok _ => .ok ()
  | .error .deadlineExceeded => .error .timeout
  | .error (.other c) => .error (.io c)

/-! ## `save` / `Save` / `load` -/

/-- The I/O environment a save transaction runs against: the flock
attempt outcomes and whether open and truncate succeed. -/
structure IOEnv where
  att : Nat → Attempt
  openOk : Bool
  truncateOk : Bool

/-- Errors `save` can return. -/
inductive SaveErr where
  | lockFail (e : LockErr)
  | openFail
  | truncateFail
  | writeFail (msg : String)
deriving DecidableEq

/-- Result of a save transaction: the returned error (if any), the jar
afterwards, the file content afterwards, and whether a lock acquisition
was attempted. -/
structure SaveOut where
  result : Except SaveErr Unit
  jar : Jar
  file : List Char
  lockTried : Bool

/-- `save(now)`: lock, open (read-write, creating), best-effort merge of
the on-disk entries (decode errors logged and ignored), purge expired
entries, truncate and seek, then write all persistent entries. A write
failure happens after the truncate, leaving an empty file. -/
def jarSave (j : Jar) (file : List Char) (now : Int) (env : IOEnv)
    (nonces : Nat → List Nat) : SaveOut :=
  match LockFile env.att with
  | .error e => ⟨.error (.lockFail e), j, file, true⟩
  | .ok _ =>
    if env.openOk then
      let j1 := match mergeFrom j file with
                | .ok j' => j'
                | .error _ => j
      let j2 := deleteExpired j1 now
      if env.truncateOk then
        match writeTo j2 nonces with
        | .ok text => ⟨.ok (), j2, text, true⟩
        | .error msg => ⟨.error (.writeFail msg), j2, [], true⟩
      else ⟨.error .truncateFail, j2, file, true⟩
    else ⟨.error .openFail, j, file, true⟩

/-- `Save`: an empty configured filename returns nil immediately, before
any lock or file access; otherwise run the save transaction at the
current time. -/
def Save (j : Jar) (file : List Char) (now : Int) (env : IOEnv)
    (nonces : Nat → List Nat) : SaveOut :=
  if j.filename = [] then ⟨.ok (), j, file, false⟩ else jarSave j file now env nonces

/-- Errors `load` can return. -/
inductive LoadErr where
  | lockFail (e : LockErr)
  | mergeFail (e : MergeErr)
  | openFail
deriving DecidableEq

/-- `load`: succeed with no entries when the parent directory or the file
does not exist; otherwise lock, open and merge, propagating merge errors. -/
def jarLoad (j : Jar) (dirExists fileExists openOk : Bool) (att : Nat → Attempt)
    (file : List Char) : Except LoadErr Jar :=
  if ¬ dirExists then .ok j
  else
    match LockFile att with
    | .error e => .error (.lockFail e)
    | .ok _ =>
      if ¬ fileExists then .ok j
      else if ¬ openOk then .error .openFail
      else
        match mergeFrom j file with
        | .ok j' => .ok j'
        | .error e => .error (.mergeFail e)

theorem encrypt_ok_ne_nil (p key n : List Nat) (ev : List Char)
    (h : encrypt p key n = .ok ev) : ev ≠ [] := by
  rw [encrypt] at h
  cases hc : aesNewCipher key with
  | error e => rw [hc] at h; exact absurd h (by simp)
  | ok u =>
    rw [hc] at h
    injection h with h
    rw [← h]
    simp

/-- Every entry surviving `deleteExpired now` expires strictly after `now`. -/
theorem deleteExpired_mem (j : Jar) (now : Int) :
    ∀ e ∈ (((deleteExpired j now).entries.map Prod.snd).flatten), now < e.expires := by
  intro e he
  rw [List.mem_flatten] at he
  obtain ⟨l, hl, hel⟩ := he
  simp only [deleteExpired, List.map_map, List.mem_map] at hl
  obtain ⟨⟨h, es⟩, -, rfl⟩ := hl
  simp only [Function.comp_apply] at hel
  have := List.mem_filter.1 hel
  simpa using this.2

/-- What the selection/encryption loop guarantees about each entry it
emits: it stems from a stored persistent entry with the same identity and
expiry, and under a configured key its Value is cleared and its
EncryptedValue is a successful encryption of that stored entry's own
value. -/
theorem collectPersistent_mem (key : List Nat) (nonces : Nat → List Nat) :
    ∀ (idx : Nat) (l es : List Entry), collectPersistent key nonces idx l = .ok es →
      ∀ e ∈ es, ∃ e₀ ∈ l, e₀.persistent = true ∧ e.expires = e₀.expires ∧
        e.persistent = true ∧
        (key = [] → e = e₀) ∧
        (key ≠ [] → e.name = e₀.name ∧ e.domain = e₀.domain ∧ e.path = e₀.path ∧
          e.value = [] ∧
          ∃ n, encrypt (strBytes e₀.value) key n = .ok e.encryptedValue) := by
  intro idx l
  induction l generalizing idx with
  | nil =>
    intro es h e he
    rw [collectPersistent] at h
    injection h with h
    subst h
    simp at he
  | cons x rest ih =>
    intro es h e he
    rw [collectPersistent] at h
    by_cases hp : x.persistent = true
    · rw [if_pos hp] at h
      by_cases hk : 0 < key.length
      · rw [if_pos hk] at h
        cases henc : encrypt (strBytes x.value) key (nonces idx) with
        | error er => rw [henc] at h; exact absurd h (by simp)
        | ok ev =>
          rw [henc] at h
          cases hrec : collectPersistent key nonces (idx + 1) rest with
          | error er => rw [hrec] at h; exact absurd h (by simp)
          | ok es' =>
            rw [hrec] at h
            injection h with h
            subst h
            rcases List.mem_cons.1 he with rfl | he'
            · refine ⟨x, by simp, hp, rfl, hp, fun hk0 => ?_,
                fun _ => ⟨rfl, rfl, rfl, rfl, nonces idx, henc⟩⟩
              rw [hk0] at hk
              simp at hk
            · obtain ⟨e₀, he₀, props⟩ := ih (idx + 1) es' hrec e he'
              exact ⟨e₀, by simp [he₀], props⟩
      · rw [if_neg hk] at h
        cases hrec : collectPersistent key nonces idx rest with
        | error er => rw [hrec] at h; exact absurd h (by simp)
        | ok es' =>
          rw [hrec] at h
          injection h with h
          subst h
          rcases List.mem_cons.1 he with rfl | he'
          · refine ⟨e, by simp, hp, rfl, hp, fun _ => rfl, fun hk' => ?_⟩
            exact absurd (List.eq_nil_of_length_eq_zero (by omega)) hk'
          · obtain ⟨e₀, he₀, props⟩ := ih idx es' hrec e he'
            exact ⟨e₀, by simp [he₀], props⟩
    · rw [if_neg hp] at h
      obtain ⟨e₀, he₀, props⟩ := ih idx es h e he
      exact ⟨e₀, by simp [he₀], props⟩

/-- Writing out a purged jar produces a file of unexpired entries only. -/
theorem writeTo_deleteExpired (j1 : Jar) (now : Int) (nonces : Nat → List Nat)
    (text : List Char) (hw : writeTo (deleteExpired j1 now) nonces = .ok text) :
    ∃ es, text = encodeEntries es ∧ ∀ e ∈ es, now < e.expires := by
  rw [writeTo] at hw
  cases hap : allPersistentEntries (deleteExpired j1 now) nonces with
  | error e => rw [hap] at hw; exact absurd hw (by simp)
  | ok es0 =>
    rw [hap] at hw
    injection hw with hw
    subst hw
    refine ⟨es0, rfl, ?_⟩
    intro e he
    rw [allPersistentEntries] at hap
    cases hcp : collectPersistent (deleteExpired j1 now).encryptedKey nonces 0
        (((deleteExpired j1 now).entries.map Prod.snd).flatten) with
    | error er => rw [hcp] at hap; exact absurd hap (by simp)
    | ok es1 =>
      rw [hcp] at hap
      injection hap with hap
      subst hap
      have he1 := (mem_sortEntries e es1).1 he
      obtain ⟨e₀, he₀, -, hexp, -⟩ := collectPersistent_mem _ nonces 0 _ es1 hcp e he1
      rw [hexp]
      exact deleteExpired_mem j1 now e₀ he₀

/-- C4: the merge step classifies every input stream three ways — an
empty (end-of-file) stream succeeds merging nothing, a stream that is
not a single JSON value is a hard error, and a JSON value that does not
unmarshal as an array of entries is discarded with success. -/
theorem C4_mergeFrom_classification (j : Jar) (s : List Char) :
    (decodeOneJson s = .eof → mergeFrom j s = .ok j) ∧
    (decodeOneJson s = .fail → mergeFrom j s = .error .syntaxErr) ∧
    (∀ v, decodeOneJson s = .value v → unmarshalEntries v = none → mergeFrom j s = .ok j) := by
  refine ⟨fun h => ?_, fun h => ?_, fun v h hu => ?_⟩
  · rw [mergeFrom, h]
  · rw [mergeFrom, h]
  · rw [mergeFrom, h]
    simp only [hu]

/-- A small jar used by the witnesses. -/
def jarW : Jar :=
  ⟨"/tmp/cookies".data, [],
    [("example.com".data, [⟨"n".data, "example.com".data, "/".data, "v".data, [], true, 100⟩])]⟩

/-- Witness for C4: an empty stream, invalid JSON, and a JSON object that
is not an entry array. -/
theorem C4_witness :
    mergeFrom jarW [] = .ok jarW ∧
    mergeFrom jarW ['('] = .error .syntaxErr ∧
    mergeFrom jarW [Char.ofNat 123, Char.ofNat 125] = .ok jarW :=
  ⟨(C4_mergeFrom_classification jarW []).1 rfl,
   (C4_mergeFrom_classification jarW ['(']).2.1 rfl,
   (C4_mergeFrom_classification jarW [Char.ofNat 123, Char.ofNat 125]).2.2 (Json.obj []) rfl rfl⟩

/-- The all-held retry loop runs out its budget with a deadline error. -/
theorem tryLockFrom_all_held (att : Nat → Attempt) :
    ∀ (r k : Nat), (∀ i, k ≤ i → i < k + r → att i = .held) →
      tryLockFrom att k r = .error .deadlineExceeded := by
  intro r
  induction r with
  | zero => intro k h; rfl
  | succ r ih =>
    intro k h
    rw [tryLockFrom, h k (le_refl k) (by omega)]
    exact ih (k + 1) (fun i h1 h2 => h i (by omega) (by omega))

/-- The retry loop's outcome depends only on the attempts inside its
budget. -/
theorem tryLockFrom_frame (att att' : Nat → Attempt) :
    ∀ (r k : Nat), (∀ i, k ≤ i → i < k + r → att' i = att i) →
      tryLockFrom att' k r = tryLockFrom att k r := by
  intro r
  induction r with
  | zero => intro k h; rfl
  | succ r ih =>
    intro k h
    rw [tryLockFrom, tryLockFrom, h k (le_refl k) (by omega)]
    cases att k with
    | success => rfl
    | ioError c => rfl
    | held => exact ih (k + 1) (fun i h1 h2 => h i (by omega) (by omega))

/-- C5: if the lock stays held for the whole bounded retry window,
`LockFile` fails with the distinct timeout error — an error no I/O
failure equals — and its outcome is a function of the attempts within
the deadline window alone (the acquisition never runs past the
deadline). -/
theorem C5_lock_timeout_distinct (att : Nat → Attempt)
    (h : ∀ i, i < lockRetryCount → att i = .held) :
    LockFile att = .error .timeout ∧
    (∀ c, (LockErr.timeout : LockErr) ≠ .io c) ∧
    (∀ att' : Nat → Attempt, (∀ i, i < lockRetryCount → att' i = att i) →
      LockFile att' = LockFile att) := by
  refine ⟨?_, fun c => by simp, fun att' h' => ?_⟩
  · rw [LockFile, tryLockContext,
      tryLockFrom_all_held att lockRetryCount 0 (fun i h1 h2 => h i (by omega))]
  · rw [LockFile, LockFile, tryLockContext, tryLockContext,
      tryLockFrom_frame att att' lockRetryCount 0 (fun i h1 h2 => h' i (by omega))]

/-- Witness for C5 with a permanently held lock. -/
theorem C5_witness :
    (∀ i, i < lockRetryCount → (fun _ => Attempt.held) i = Attempt.held) ∧
    (LockFile (fun _ => Attempt.held) = .error .timeout ∧
      (∀ c, (LockErr.timeout : LockErr) ≠ .io c) ∧
      (∀ att' : Nat → Attempt, (∀ i, i < lockRetryCount → att' i = (fun _ => Attempt.held) i) →
        LockFile att' = LockFile (fun _ => Attempt.held))) :=
  ⟨fun _ _ => rfl, C5_lock_timeout_distinct (fun _ => Attempt.held) (fun _ _ => rfl)⟩

/-- C10: with an empty configured filename, `Save` returns nil
immediately: no lock is attempted and the jar and the file are unchanged. -/
theorem C10_save_noop_on_empty_filename (j : Jar) (file : List Char) (now : Int)
    (env : IOEnv) (nonces : Nat → List Nat) (h : j.filename = []) :
    Save j file now env nonces = ⟨.ok (), j, file, false⟩ := by
  rw [Save, if_pos h]

/-- Witness for C10 on a concrete jar with an empty filename. -/
theorem C10_witness :
    (Jar.mk [] [] []).filename = [] ∧
    Save (Jar.mk [] [] []) "stuff".data 7 ⟨fun _ => .success, true, true⟩ (fun _ => []) =
      ⟨.ok (), Jar.mk [] [] [], "stuff".data, false⟩ :=
  ⟨rfl, C10_save_noop_on_empty_filename (Jar.mk [] [] []) "stuff".data 7
    ⟨fun _ => .success, true, true⟩ (fun _ => []) rfl⟩

/-- C3: when the on-disk content fails the merge step (invalid JSON, or a
JSON value that is not an entry array), `save` ignores the failure,
proceeds to truncate and rewrite, and the resulting file is exactly the
serialization of the jar's own (purged) persistent entries. -/
theorem C3_save_tolerates_corrupt_file (j : Jar) (file : List Char) (now : Int) (env : IOEnv)
    (nonces : Nat → List Nat) (text : List Char)
    (hlock : LockFile env.att = .ok ())
    (hopen : env.openOk = true) (htrunc : env.truncateOk = true)
    (hbad : mergeFrom j file = .error .syntaxErr ∨ mergeFrom j file = .ok j)
    (hw : writeTo (deleteExpired j now) nonces = .ok text) :
    jarSave j file now env nonces = ⟨.ok (), deleteExpired j now, text, true⟩ := by
  have hj1 : (match mergeFrom j file with | .ok j' => j' | .error _ => j) = j := by
    rcases hbad with h | h <;> rw [h]
  simp only [jarSave, hlock, hopen, if_true, htrunc, hj1, hw]

/-- C6: whenever `save` succeeds, the file it wrote is the serialization
of an entry list in which every entry expires strictly after `now` — any
entry with Expires at or before `now` was purged before rewriting and is
absent from the file. -/
theorem C6_save_purges_expired (j : Jar) (file : List Char) (now : Int) (env : IOEnv)
    (nonces : Nat → List Nat)
    (hok : (jarSave j file now env nonces).result = .ok ()) :
    ∃ es, (jarSave j file now env nonces).file = encodeEntries es ∧
      ∀ e ∈ es, now < e.expires := by
  cases hl : LockFile env.att with
  | error e => simp only [jarSave, hl] at hok; simp at hok
  | ok u =>
    cases u
    cases ho : env.openOk with
    | false => simp only [jarSave, hl, ho] at hok; simp at hok
    | true =>
      cases ht : env.truncateOk with
      | false => simp only [jarSave, hl, ho, ht] at hok; simp at hok
      | true =>
        cases hw : writeTo
            (deleteExpired (match mergeFrom j file with | .ok j' => j' | .error _ => j) now)
            nonces with
        | error msg => simp only [jarSave, hl, ho, ht, hw] at hok; simp at hok
        | ok text =>
          simp only [jarSave, hl, ho, ht, hw]
          obtain ⟨es, hes, hexp⟩ := writeTo_deleteExpired _ now nonces text hw
          exact ⟨es, hes, hexp⟩

/-- C7: with a non-empty encryption key configured, every entry produced
for serialization is persistent, carries an empty Value and a non-empty
EncryptedValue holding the encryption, under the jar's key, of the
original Value of the stored entry it was produced from (the stored
persistent entry with the same Name, Domain, Path and Expires) — in
particular no serialized entry has both a non-empty Value and a
non-empty EncryptedValue. -/
theorem C7_encrypted_serialization (j : Jar) (nonces : Nat → List Nat) (es : List Entry)
    (hkey : j.encryptedKey ≠ [])
    (h : allPersistentEntries j nonces = .ok es) :
    ∀ e ∈ es, e.persistent = true ∧ e.value = [] ∧ e.encryptedValue ≠ [] ∧
      ¬(e.value ≠ [] ∧ e.encryptedValue ≠ []) ∧
      ∃ e₀ ∈ (j.entries.map Prod.snd).flatten,
        e₀.persistent = true ∧ e.name = e₀.name ∧ e.domain = e₀.domain ∧
        e.path = e₀.path ∧ e.expires = e₀.expires ∧
        ∃ n, encrypt (strBytes e₀.value) j.encryptedKey n = .ok e.encryptedValue := by
  intro e he
  rw [allPersistentEntries] at h
  cases hcp : collectPersistent j.encryptedKey nonces 0 ((j.entries.map Prod.snd).flatten) with
  | error er => rw [hcp] at h; exact absurd h (by simp)
  | ok es1 =>
    rw [hcp] at h
    injection h with h
    subst h
    have he1 := (mem_sortEntries e es1).1 he
    obtain ⟨e₀, he₀, hp0, hexp, hpe, hknil, henc⟩ :=
      collectPersistent_mem _ nonces 0 _ es1 hcp e he1
    obtain ⟨hname, hdom, hpath, hv, n, hen⟩ := henc hkey
    refine ⟨hpe, hv, encrypt_ok_ne_nil _ _ _ _ hen, ?_,
      e₀, he₀, hp0, hname, hdom, hpath, hexp, n, hen⟩
    intro hcontra
    exact hcontra.1 hv

/-- A jar with no encryption key, one live and one expired entry. -/
def jarX : Jar :=
  ⟨"/tmp/cookies".data, [],
    [("example.com".data,
      [⟨"live".data, "example.com".data, "/".data, "v1".data, [], true, 100⟩,
       ⟨"dead".data, "example.com".data, "/".data, "v2".data, [], true, 10⟩])]⟩

/-- An I/O environment in which everything succeeds. -/
def envW : IOEnv := ⟨fun _ => .success, true, true⟩

set_option maxRecDepth 4000 in
/-- Witness for C6: saving `jarX` at time 50 succeeds and the file holds
only entries expiring after 50. -/
theorem C6_witness :
    (jarSave jarX [] 50 envW (fun _ => [])).result = .ok () ∧
    ∃ es, (jarSave jarX [] 50 envW (fun _ => [])).file = encodeEntries es ∧
      ∀ e ∈ es, 50 < e.expires :=
  ⟨by rfl, C6_save_purges_expired jarX [] 50 envW (fun _ => []) (by rfl)⟩

/-- The single surviving entry of the C3 witness jar. -/
def entryY : Entry := ⟨"n".data, "example.com".data, "/".data, "v".data, [], true, 100⟩

/-- A jar with no encryption key holding `entryY`. -/
def jarY : Jar := ⟨"/tmp/cookies".data, [], [("example.com".data, [entryY])]⟩

set_option maxRecDepth 4000 in
/-- Witness for C3: saving over a file holding non-JSON garbage succeeds
and writes exactly the jar's own entry. -/
theorem C3_witness :
    LockFile envW.att = .ok () ∧ envW.openOk = true ∧ envW.truncateOk = true ∧
    (mergeFrom jarY ['('] = .error .syntaxErr ∨ mergeFrom jarY ['('] = .ok jarY) ∧
    writeTo (deleteExpired jarY 0) (fun _ => []) = .ok (encodeEntries [entryY]) ∧
    jarSave jarY ['('] 0 envW (fun _ => []) =
      ⟨.ok (), deleteExpired jarY 0, encodeEntries [entryY], true⟩ :=
  ⟨by rfl, by rfl, by rfl, Or.inl (by rfl), by rfl,
    C3_save_tolerates_corrupt_file jarY ['('] 0 envW (fun _ => []) (encodeEntries [entryY])
      (by rfl) (by rfl) (by rfl) (Or.inl (by rfl)) (by rfl)⟩

/-- Key and nonce used in the C7 witness. -/
def keyW : List Nat := List.range 16

/-- The fresh nonce the witness environment always supplies. -/
def nonceW : List Nat := List.range 12

/-- The encrypted value the witness jar's entry serializes to. -/
def evW : List Char :=
  ['v', '0', '1'] ++ b64Encode (nonceW ++ gcmSeal keyW nonceW (strBytes "v".data) [])

/-- A jar configured with a 16-byte encryption key and one persistent
entry. -/
def jarE : Jar :=
  ⟨"/tmp/cookies".data, keyW,
    [("example.com".data, [⟨"n".data, "example.com".data, "/".data, "v".data, [], true, 100⟩])]⟩

/-- Witness for C7: serializing `jarE` encrypts the value into the
EncryptedValue field and clears the Value field. -/
theorem C7_witness :
    jarE.encryptedKey ≠ [] ∧
    allPersistentEntries jarE (fun _ => nonceW) =
      .ok [⟨"n".data, "example.com".data, "/".data, [], evW, true, 100⟩] ∧
    ∀ e ∈ [(⟨"n".data, "example.com".data, "/".data, [], evW, true, 100⟩ : Entry)],
      e.persistent = true ∧ e.value = [] ∧ e.encryptedValue ≠ [] ∧
      ¬(e.value ≠ [] ∧ e.encryptedValue ≠ []) ∧
      ∃ e₀ ∈ (jarE.entries.map Prod.snd).flatten,
        e₀.persistent = true ∧ e.name = e₀.name ∧ e.domain = e₀.domain ∧
        e.path = e₀.path ∧ e.expires = e₀.expires ∧
        ∃ n, encrypt (strBytes e₀.value) jarE.encryptedKey n = .ok e.encryptedValue := by
  have henc : encrypt (strBytes "v".data) keyW nonceW = .ok evW := by
    rw [encrypt_ok _ _ _ (Or.inl (by decide)), evW]
  have hall : allPersistentEntries jarE (fun _ => nonceW) =
      .ok [⟨"n".data, "example.com".data, "/".data, [], evW, true, 100⟩] := by
    simp [allPersistentEntries, collectPersistent, sortEntries, insertEntry, jarE, henc,
      show 0 < keyW.length from by decide]
  exact ⟨by decide, hall,
    C7_encrypted_serialization jarE (fun _ => nonceW)
      [⟨"n".data, "example.com".data, "/".data, [], evW, true, 100⟩] (by decide) hall⟩
